import Mathlib

/-!
Shallow embedding of the slot-machine program (src/programs/slot_machine/src/lib.rs).

Machine integers are modelled as `Nat` (unsigned) and `Int` (signed) with
explicit range checks mirroring the source's `checked_*` / `try_from`
operations; every fallible source function returns `Except ErrorCode`.
The SHA-256 based `hashv` primitive is external to the program, so the seed
chain is parameterised by an abstract hash function `HashFn`; all theorems
below either quantify over it or instantiate it with a concrete function.
Account custody (SPL token transfers, lamport moves), which the spec places
out of scope, is modelled as always-succeeding external effects; the account
*keys* and balances that the program itself compares are kept as explicit
parameters so that every `require_keys_eq!` / balance check in the source is
present in the model.  Anchor aborts a whole instruction on any returned
error, leaving the persisted state untouched; the model makes that
transaction semantics explicit through `applyTx`.
-/

deriving instance DecidableEq for Except

/-- Pre-assembled decidability instance for the outcome tuple of the chain
loop (keeps instance search small). -/
instance : DecidableEq (Nat × Nat × Nat × Nat × List Nat) := inferInstance

/-- Unsigned 8-bit bound. -/
def U8_LIMIT : Nat := 256

/-- Unsigned 32-bit bound. -/
def U32_LIMIT : Nat := 4294967296

/-- Unsigned 64-bit bound. -/
def U64_LIMIT : Nat := 18446744073709551616

/-- Unsigned 128-bit bound. -/
def U128_LIMIT : Nat := 340282366920938463463374607431768211456

/-- Largest signed 64-bit value. -/
def I64_MAX : Int := 9223372036854775807

/-- Smallest signed 64-bit value. -/
def I64_MIN : Int := -9223372036854775808

/-- The source's `ErrorCode` enum (the constructors the model needs). -/
inductive ErrorCode where
  | Unauthorized
  | InvalidAmount
  | BetBelowMinimum
  | MathOverflow
  | InvalidPoolAccount
  | InsufficientPool
  | InvalidCommissionRate
  | InvalidSymbolWeights
  | InvalidBetTable
  | StakeBelowThreshold
  | TooManyAgents
  | AgentNotFound
  | AgentInactive
  | NoStakeToRedeem
  | InsufficientStakeVault
  | SettlementNotReady
  | NoCommissionToWithdraw
  | InvalidCommissionBalance
  | InvalidRoomCard
  | InvalidVrfAccount
  | InvalidVrfData
  | VrfNotUpdated
  | PlayerMismatch
  | PlayerTokenMismatch
deriving DecidableEq, Repr

/-- `u64::checked_add`. -/
def checkedAddU64 (a b : Nat) : Except ErrorCode Nat :=
  if a + b < U64_LIMIT then .ok (a + b) else .error .MathOverflow

/-- `u64::checked_sub`. -/
def checkedSubU64 (a b : Nat) : Except ErrorCode Nat :=
  if b ≤ a then .ok (a - b) else .error .MathOverflow

/-- `u32::checked_add`. -/
def checkedAddU32 (a b : Nat) : Except ErrorCode Nat :=
  if a + b < U32_LIMIT then .ok (a + b) else .error .MathOverflow

/-- `u8::checked_add`. -/
def checkedAddU8 (a b : Nat) : Except ErrorCode Nat :=
  if a + b < U8_LIMIT then .ok (a + b) else .error .MathOverflow

/-- `u8::checked_mul`. -/
def checkedMulU8 (a b : Nat) : Except ErrorCode Nat :=
  if a * b < U8_LIMIT then .ok (a * b) else .error .MathOverflow

/-- `u128::checked_mul`. -/
def checkedMulU128 (a b : Nat) : Except ErrorCode Nat :=
  if a * b < U128_LIMIT then .ok (a * b) else .error .MathOverflow

/-- `u64::try_from` on a `u128` value (`.map_err(|_| MathOverflow)`). -/
def u64TryFrom (n : Nat) : Except ErrorCode Nat :=
  if n < U64_LIMIT then .ok n else .error .MathOverflow

/-- `i64::try_from` on a `u128` value (`.map_err(|_| MathOverflow)`). -/
def i64TryFrom (n : Nat) : Except ErrorCode Int :=
  if (n : Int) ≤ I64_MAX then .ok n else .error .MathOverflow

/-- `i64::checked_add`. -/
def i64CheckedAdd (a b : Int) : Except ErrorCode Int :=
  if I64_MIN ≤ a + b ∧ a + b ≤ I64_MAX then .ok (a + b) else .error .MathOverflow

/-- `i64::saturating_sub`. -/
def i64SaturatingSub (a b : Int) : Int :=
  max I64_MIN (min I64_MAX (a - b))

/-- `SYMBOLS` constant from the source. -/
def SYMBOLS : Nat := 6

/-- `MAX_AGENT_COUNT` constant from the source. -/
def MAX_AGENT_COUNT : Nat := 48

/-- The source's `Agent` record; `Pubkey`s are modelled as `Nat` identifiers. -/
structure Agent where
  pubkey : Nat
  stake : Nat
  room_card : Nat
  commission : Int
  stake_time : Int
  last_settlement : Int
  is_active : Bool
deriving DecidableEq, Repr

/-- Default `Agent` used for in-bounds list reads (never observed out of bounds). -/
def dAgent : Agent := ⟨0, 0, 0, 0, 0, 0, false⟩

/-- The source's `GameState` account (custody-only fields `bump` omitted). -/
structure GameState where
  owner : Nat
  pool_mint : Nat
  pool_token_account : Nat
  total_pool : Nat
  nonce : Nat
  agents : List Agent
  next_room_card : Nat
  commission_rate : Nat
  stake_threshold : Nat
  settlement_period : Nat
  vrf : Nat
  vrf_result_offset : Nat
  symbol_weights : List Nat
  payout_triple : List Nat
  payout_double : List Nat
  max_auto_spins : Nat
  min_bet : Nat
deriving DecidableEq, Repr

/-- The source's `PendingPlay` account. -/
structure PendingPlay where
  player : Nat
  player_token_account : Nat
  pool_token_account : Nat
  request_nonce : Nat
  request_slot : Nat
  total_bet : Nat
  bets : List Nat
  has_room_card : Bool
  room_card : Nat
  vrf_result_before : List Nat
deriving DecidableEq, Repr

/-- The state written by `initialize` (pool and mint keys and the initial pool
balance come from the supplied accounts; all other fields are the source's
defaults). -/
def initGameState (owner poolMint poolKey poolAmount : Nat) : GameState :=
  { owner := owner
    pool_mint := poolMint
    pool_token_account := poolKey
    total_pool := poolAmount
    nonce := 0
    agents := []
    next_room_card := 10000
    commission_rate := 10
    stake_threshold := 1000000
    settlement_period := 86400
    vrf := 0
    vrf_result_offset := 0
    symbol_weights := [2500, 2500, 250, 1600, 2150, 1000]
    payout_triple := [220, 180, 2000, 360, 450, 0]
    payout_double := [65, 50, 100, 75, 85, 0]
    max_auto_spins := 5
    min_bet := 100 }

/-- Abstract stand-in for `solana_program::hash::hashv`: a function from a
list of byte slices to a 32-byte digest.  The program only chains and
compares digests, so theorems quantify over this function. -/
abbrev HashFn := List (List Nat) → List Nat

/-- Byte string of the domain tag `SLOT_RNG`. -/
def tagRng : List Nat := [83, 76, 79, 84, 95, 82, 78, 71]

/-- Byte string of the domain tag `SLOT_PLAY`. -/
def tagPlay : List Nat := [83, 76, 79, 84, 95, 80, 76, 65, 89]

/-- Byte string of the domain tag `SLOT_SETTLE`. -/
def tagSettle : List Nat := [83, 76, 79, 84, 95, 83, 69, 84, 84, 76, 69]

/-- `u64::to_le_bytes`. -/
def leBytes8 (n : Nat) : List Nat :=
  [n % 256, n / 256 % 256, n / 65536 % 256, n / 16777216 % 256,
   n / 4294967296 % 256, n / 1099511627776 % 256,
   n / 281474976710656 % 256, n / 72057594037927936 % 256]

/-- 32-byte serialization of a `Pubkey` identifier. -/
def pubkeyBytes (p : Nat) : List Nat :=
  (List.range 32).map (fun i => p / 256 ^ i % 256)

/-- Source `next_seed`: chain the seed with a counter under tag `SLOT_RNG`. -/
def next_seed (h : HashFn) (s : List Nat) (c : Nat) : List Nat :=
  h [tagRng, s, leBytes8 c]

/-- Source `derive_seed`: domain-separated combination of the oracle bytes
with caller, nonce, slot and (for settlement) the second oracle reading. -/
def derive_seed (h : HashFn) (vrf : List Nat) (player : Option Nat)
    (nonce : Option Nat) (slot : Option Nat) (after : Option (List Nat)) : List Nat :=
  let nb := leBytes8 (nonce.getD 0)
  let sb := leBytes8 (slot.getD 0)
  let p := pubkeyBytes (player.getD 0)
  match after with
  | some a => h [tagSettle, vrf, a, p, nb, sb]
  | none => h [tagPlay, vrf, p, nb, sb]

/-- Source `read_vrf_bytes`: key equality check, bounds check, 32-byte slice.
The Switchboard ownership check is on external account metadata and is out of
scope; the raw account `data` is an explicit parameter. -/
def read_vrf_bytes (vrfKey expected offset : Nat) (data : List Nat) :
    Except ErrorCode (List Nat) :=
  if vrfKey ≠ expected then .error .InvalidVrfAccount
  else if data.length < offset + 32 then .error .InvalidVrfData
  else .ok ((data.drop offset).take 32)

/-- First 16 bits of a digest as a little-endian unsigned integer
(`u16::from_le_bytes([seed[0], seed[1]])`); `% 256` models the `u8` type of
each byte. -/
def u16le (seed : List Nat) : Nat :=
  seed.getD 0 0 % 256 + 256 * (seed.getD 1 0 % 256)

/-- The walk of the source's `pick_symbol` loop: return the first index whose
weight exceeds the remaining value, subtracting as it goes. -/
def pick_walk : List Nat → Nat → Nat → Option Nat
  | [], _, _ => none
  | ww :: rest, i, r => if r < ww then some i else pick_walk rest (i + 1) (r - ww)

/-- The checked `u32` summation at the top of `pick_symbol`. -/
def weight_sum_checked : List Nat → Nat → Except ErrorCode Nat
  | [], acc => .ok acc
  | x :: rest, acc =>
    match checkedAddU32 acc x with
    | .error e => .error e
    | .ok acc2 => weight_sum_checked rest acc2

/-- Source `pick_symbol`: weighted linear sampler over the digest's first
16 bits, with fallback to the last symbol index. -/
def pick_symbol (seed w : List Nat) : Except ErrorCode Nat :=
  match weight_sum_checked w 0 with
  | .error e => .error e
  | .ok sum =>
    if ¬ 0 < sum then .error .InvalidSymbolWeights
    else
      match pick_walk w 0 (u16le seed % sum) with
      | some i => .ok i
      | none => .ok (SYMBOLS - 1)

/-- How many of the three reels equal `sym` (the `m` counter of
`compute_spin_payout`). -/
def spin_match_count (reels : List Nat) (sym : Nat) : Nat :=
  (if reels.getD 0 0 = sym then 1 else 0) +
    (if reels.getD 1 0 = sym then 1 else 0) +
    (if reels.getD 2 0 = sym then 1 else 0)

/-- One iteration of the `for sym in 0..SYMBOLS` loop of
`compute_spin_payout`. -/
def spin_payout_step (b reels : List Nat) (s : GameState) (sym total : Nat) :
    Except ErrorCode Nat :=
  let bet := b.getD sym 0
  if bet = 0 then .ok total
  else
    let m := spin_match_count reels sym
    let rate := if m = 3 then s.payout_triple.getD sym 0
      else if m = 2 then s.payout_double.getD sym 0
      else 0
    if rate = 0 then .ok total
    else
      match checkedMulU128 bet rate with
      | .error e => .error e
      | .ok prod =>
        match u64TryFrom (prod / 100) with
        | .error e => .error e
        | .ok win => checkedAddU64 total win

/-- Source `compute_spin_payout`: the fixed six-symbol loop, unrolled. -/
def compute_spin_payout (b reels : List Nat) (s : GameState) : Except ErrorCode Nat :=
  match spin_payout_step b reels s 0 0 with
  | .error e => .error e
  | .ok t0 =>
    match spin_payout_step b reels s 1 t0 with
    | .error e => .error e
    | .ok t1 =>
      match spin_payout_step b reels s 2 t1 with
      | .error e => .error e
      | .ok t2 =>
        match spin_payout_step b reels s 3 t2 with
        | .error e => .error e
        | .ok t3 =>
          match spin_payout_step b reels s 4 t3 with
          | .error e => .error e
          | .ok t4 => spin_payout_step b reels s 5 t4

/-- The `for i in 0..3` reel-drawing loop of `compute_total_payout`, unrolled:
advance the chain seed three times, picking one symbol after each advance. -/
def spinOnce (h : HashFn) (s : GameState) (cur : List Nat) (c : Nat) :
    Except ErrorCode (List Nat × Nat × List Nat) :=
  let cur1 := next_seed h cur c
  match checkedAddU64 c 1 with
  | .error e => .error e
  | .ok c1 =>
    match pick_symbol cur1 s.symbol_weights with
    | .error e => .error e
    | .ok r1 =>
      let cur2 := next_seed h cur1 c1
      match checkedAddU64 c1 1 with
      | .error e => .error e
      | .ok c2 =>
        match pick_symbol cur2 s.symbol_weights with
        | .error e => .error e
        | .ok r2 =>
          let cur3 := next_seed h cur2 c2
          match checkedAddU64 c2 1 with
          | .error e => .error e
          | .ok c3 =>
            match pick_symbol cur3 s.symbol_weights with
            | .error e => .error e
            | .ok r3 => .ok (cur3, c3, [r1, r2, r3])

/-- The `loop` of `compute_total_payout`, with explicit fuel (the loop body
runs at most `max_auto_spins + 1` times, proved below, so the `none`
fuel-exhaustion outcome is unreachable from the top-level entry).  Result
tuple: running total, exit value of the chain counter `c`, `doubles`, `mul`
and the last drawn reels. -/
def compute_total_payout_aux (h : HashFn) (bets : List Nat) (s : GameState) :
    Nat → List Nat → Nat → Nat → Nat → Nat →
    Option (Except ErrorCode (Nat × Nat × Nat × Nat × List Nat))
  | 0, _, _, _, _, _ => none
  | fuel + 1, cur, c, mul, doubles, total =>
    match spinOnce h s cur c with
    | .error e => some (.error e)
    | .ok (cur', c', reels) =>
      match compute_spin_payout bets reels s with
      | .error e => some (.error e)
      | .ok payout =>
        match checkedMulU128 payout mul with
        | .error e => some (.error e)
        | .ok scaled =>
          match u64TryFrom scaled with
          | .error e => some (.error e)
          | .ok s64 =>
            match checkedAddU64 total s64 with
            | .error e => some (.error e)
            | .ok total' =>
              if reels.contains 5 = false then
                some (.ok (total', c', doubles, mul, reels))
              else if s.max_auto_spins ≤ doubles ∨ 16 ≤ mul then
                some (.ok (total', c', doubles, mul, reels))
              else
                match checkedMulU8 mul 2 with
                | .error e => some (.error e)
                | .ok mul' =>
                  match checkedAddU8 doubles 1 with
                  | .error e => some (.error e)
                  | .ok doubles' =>
                    compute_total_payout_aux h bets s fuel cur' c' mul' doubles' total'

/-- Source `compute_total_payout`: the chain loop started at multiplier 1,
zero doubles, counter 0.  The `none` branch is unreachable (fuel
sufficiency is proved below); it is mapped to an arbitrary error. -/
def compute_total_payout (h : HashFn) (seed bets : List Nat) (s : GameState) :
    Except ErrorCode (Nat × Nat × Nat × List Nat) :=
  match compute_total_payout_aux h bets s (s.max_auto_spins + 1) seed 0 1 0 0 with
  | none => .error .MathOverflow
  | some (.error e) => .error e
  | some (.ok (total, _, doubles, mul, last)) => .ok (total, doubles, mul, last)

/-- The spec glossary's basis-100 fixed-point rendering of a multiplier
(integer value 100 denotes 1.0x). -/
def basis100 (m : Nat) : Nat := 100 * m

/-- The checked summation of `bets_total`. -/
def bets_total_aux : List Nat → Nat → Except ErrorCode Nat
  | [], acc => .ok acc
  | x :: rest, acc =>
    match checkedAddU64 acc x with
    | .error e => .error e
    | .ok acc2 => bets_total_aux rest acc2

/-- Source `bets_total`: checked sum of the bet vector. -/
def bets_total (b : List Nat) : Except ErrorCode Nat := bets_total_aux b 0

/-- The `for i in 0..5` minimum-bet loop of `validate_bets`, over an explicit
index list. -/
def check_min_bets (b : List Nat) (min_bet : Nat) : List Nat → Except ErrorCode Unit
  | [] => .ok ()
  | i :: rest =>
    if 0 < b.getD i 0 ∧ b.getD i 0 < min_bet then .error .BetBelowMinimum
    else check_min_bets b min_bet rest

/-- Source `validate_bets`: reserved slot 5 must be 0, the total must be
positive, and (when `min_bet > 0`) every non-zero slot among the first five
must reach `min_bet`. -/
def validate_bets (b : List Nat) (min_bet : Nat) : Except ErrorCode Unit :=
  if b.getD 5 0 ≠ 0 then .error .InvalidBetTable
  else
    match bets_total b with
    | .error e => .error e
    | .ok total =>
      if ¬ 0 < total then .error .InvalidAmount
      else if 0 < min_bet then check_min_bets b min_bet [0, 1, 2, 3, 4]
      else .ok ()

/-- Source `find_active_agent_by_room_card` (the name notwithstanding, it
matches on a positive room card, not on `is_active`). -/
def find_active_agent_by_room_card (s : GameState) (card : Nat) : Option Agent :=
  s.agents.find? (fun a => a.room_card == card && decide (0 < a.room_card))

/-- Rust's `iter().position(pred)`: index of the first element satisfying
the predicate. -/
def find_index (p : Agent → Bool) : List Agent → Option Nat
  | [] => none
  | a :: l => if p a then some 0 else (find_index p l).map (· + 1)

/-- The predicate `apply_agent_commission` searches agents with. -/
def agentCommissionPred (card : Nat) (x : Agent) : Bool :=
  x.is_active && x.room_card == card

/-- Replace agent `i`'s commission, leaving all other fields and agents. -/
def setAgentCommission (s : GameState) (i : Nat) (v : Int) : GameState :=
  { s with agents := s.agents.set i { s.agents.getD i dAgent with commission := v } }

/-- Source `apply_agent_commission`: asymmetric commission accrual from the
net house result of a resolved play. -/
def apply_agent_commission (s : GameState) (card : Option Nat) (total_bet payout : Nat) :
    Except ErrorCode GameState :=
  match card with
  | none => .ok s
  | some card =>
    match find_index (agentCommissionPred card) s.agents with
    | none => .error .InvalidRoomCard
    | some i =>
      let a := s.agents.getD i dAgent
      let net : Int := (payout : Int) - (total_bet : Int)
      if s.commission_rate = 0 then .ok s
      else if net < 0 then
        match checkedMulU128 (-net).toNat s.commission_rate with
        | .error e => .error e
        | .ok prod =>
          match i64TryFrom (prod / 100) with
          | .error e => .error e
          | .ok di =>
            match i64CheckedAdd a.commission di with
            | .error e => .error e
            | .ok v => .ok (setAgentCommission s i v)
      else if 0 < net then
        if a.commission = 0 then .ok s
        else
          match checkedMulU128 net.toNat s.commission_rate with
          | .error e => .error e
          | .ok prod =>
            match i64TryFrom (prod / 100) with
            | .error e => .error e
            | .ok di =>
              .ok (setAgentCommission s i (max (i64SaturatingSub a.commission di) 0))
      else .ok s

/-- Source `become_agent`.  The lamport transfer is an external effect; `now`
is the clock reading. -/
def become_agent (s : GameState) (agentKey stake_amount : Nat) (now : Int) :
    Except ErrorCode GameState :=
  if ¬ s.stake_threshold ≤ stake_amount then .error .StakeBelowThreshold
  else if ¬ s.agents.length < MAX_AGENT_COUNT then .error .TooManyAgents
  else
    match find_index (fun a => a.pubkey == agentKey) s.agents with
    | some i =>
      let a0 := s.agents.getD i dAgent
      let room_card := if a0.room_card = 0 then s.next_room_card else a0.room_card
      match (if a0.room_card = 0 then checkedAddU64 s.next_room_card 1
             else .ok s.next_room_card) with
      | .error e => .error e
      | .ok nrc =>
        match checkedAddU64 a0.stake stake_amount with
        | .error e => .error e
        | .ok st' =>
          let a1 := { a0 with
            stake := st'
            is_active := true
            room_card := room_card
            stake_time := now
            last_settlement := if a0.last_settlement < 0 then now else a0.last_settlement }
          .ok { s with next_room_card := nrc, agents := s.agents.set i a1 }
    | none =>
      match checkedAddU64 s.next_room_card 1 with
      | .error e => .error e
      | .ok nrc =>
        .ok { s with
          next_room_card := nrc
          agents := s.agents ++
            [{ pubkey := agentKey, stake := stake_amount, room_card := s.next_room_card,
               commission := 0, stake_time := now, last_settlement := now,
               is_active := true }] }

/-- Source `redeem_agent_stake`; `vault` is the game account's lamport
balance. -/
def redeem_agent_stake (s : GameState) (agentKey vault : Nat) :
    Except ErrorCode GameState :=
  match find_index (fun a => a.pubkey == agentKey) s.agents with
  | none => .error .AgentNotFound
  | some i =>
    let a := s.agents.getD i dAgent
    if ¬ 0 < a.stake then .error .NoStakeToRedeem
    else if ¬ a.stake ≤ vault then .error .InsufficientStakeVault
    else .ok { s with agents := s.agents.set i { a with stake := 0, room_card := 0, commission := 0 } }

/-- Source `withdraw_commission`; `poolKey`/`poolAmount` are the supplied
pool token account's key and balance, `now` the clock reading. -/
def withdraw_commission (s : GameState) (agentKey : Nat) (now : Int)
    (poolKey poolAmount : Nat) : Except ErrorCode GameState :=
  if poolKey ≠ s.pool_token_account then .error .InvalidPoolAccount
  else
    match find_index (fun a => a.pubkey == agentKey) s.agents with
    | none => .error .AgentNotFound
    | some i =>
      let a := s.agents.getD i dAgent
      if ¬ 0 < a.room_card then .error .AgentInactive
      else if ¬ (s.settlement_period : Int) ≤ i64SaturatingSub now a.last_settlement then
        .error .SettlementNotReady
      else if a.commission < 0 then .error .InvalidCommissionBalance
      else if ¬ 0 < a.commission.toNat then .error .NoCommissionToWithdraw
      else if ¬ a.commission.toNat ≤ poolAmount then .error .InsufficientPool
      else if ¬ a.commission.toNat ≤ s.total_pool then .error .InsufficientPool
      else
        match checkedSubU64 s.total_pool a.commission.toNat with
        | .error e => .error e
        | .ok tp =>
          .ok { s with
            total_pool := tp
            agents := s.agents.set i { a with commission := 0, last_settlement := now } }

/-- External context of a `play` / `request_play` call: caller key, the
caller's and pool's token account keys, the VRF account key and raw data,
the current slot, and the pool token account's (deserialized) balance. -/
structure PlayCtx where
  player : Nat
  playerTokenKey : Nat
  poolKey : Nat
  vrfKey : Nat
  vrfData : List Nat
  slot : Nat
  poolAmount : Nat
deriving Repr

/-- External context of a `settle_play` call. -/
structure SettleCtx where
  playerKey : Nat
  playerTokenKey : Nat
  poolKey : Nat
  vrfKey : Nat
  vrfData : List Nat
  poolAmount : Nat
deriving Repr

/-- Everything `play` does before the commission-ledger update (the source
lines up to the `apply_agent_commission` call): validation, stake intake,
seed derivation, outcome computation and payout transfer.  Returns the
updated state, the total bet, and the payout. -/
def play_core (h : HashFn) (s : GameState) (bets : List Nat) (ctx : PlayCtx) :
    Except ErrorCode (GameState × Nat × Nat) :=
  match validate_bets bets s.min_bet with
  | .error e => .error e
  | .ok _ =>
    if ctx.poolKey ≠ s.pool_token_account then .error .InvalidPoolAccount
    else
      match bets_total bets with
      | .error e => .error e
      | .ok total_bet =>
        match checkedAddU64 s.total_pool total_bet with
        | .error e => .error e
        | .ok tp1 =>
          match read_vrf_bytes ctx.vrfKey s.vrf s.vrf_result_offset ctx.vrfData with
          | .error e => .error e
          | .ok vrf =>
            let seed := derive_seed h vrf (some ctx.player) (some s.nonce) (some ctx.slot) none
            match checkedAddU64 s.nonce 1 with
            | .error e => .error e
            | .ok nonce1 =>
              let s1 := { s with total_pool := tp1, nonce := nonce1 }
              match compute_total_payout h seed bets s1 with
              | .error e => .error e
              | .ok (payout, _, _, _) =>
                if 0 < payout then
                  if ctx.poolAmount < payout then .error .InsufficientPool
                  else if s1.total_pool < payout then .error .InsufficientPool
                  else
                    match checkedSubU64 s1.total_pool payout with
                    | .error e => .error e
                    | .ok tp2 => .ok ({ s1 with total_pool := tp2 }, total_bet, payout)
                else .ok (s1, total_bet, payout)

/-- Source `play`: immediate resolution, ending in the commission-ledger
update attributed to the optional room card. -/
def play (h : HashFn) (s : GameState) (bets : List Nat) (room_card : Option Nat)
    (ctx : PlayCtx) : Except ErrorCode GameState :=
  match play_core h s bets ctx with
  | .error e => .error e
  | .ok (s2, total_bet, payout) => apply_agent_commission s2 room_card total_bet payout

/-- Source `request_play`: validate, take the stake, snapshot the oracle and
allocate the pending record (no seed is derived at request time). -/
def request_play (s : GameState) (bets : List Nat)
    (room_card : Option Nat) (ctx : PlayCtx) :
    Except ErrorCode (GameState × PendingPlay) :=
  match validate_bets bets s.min_bet with
  | .error e => .error e
  | .ok _ =>
    if ctx.poolKey ≠ s.pool_token_account then .error .InvalidPoolAccount
    else if ctx.vrfKey ≠ s.vrf then .error .InvalidVrfAccount
    else if (match room_card with
             | some card => (find_active_agent_by_room_card s card).isNone
             | none => false) then .error .InvalidRoomCard
    else
      match bets_total bets with
      | .error e => .error e
      | .ok total_bet =>
        match checkedAddU64 s.total_pool total_bet with
        | .error e => .error e
        | .ok tp1 =>
          match read_vrf_bytes ctx.vrfKey s.vrf s.vrf_result_offset ctx.vrfData with
          | .error e => .error e
          | .ok before =>
            match checkedAddU64 s.nonce 1 with
            | .error e => .error e
            | .ok nonce1 =>
              .ok ({ s with total_pool := tp1, nonce := nonce1 },
                { player := ctx.player
                  player_token_account := ctx.playerTokenKey
                  pool_token_account := ctx.poolKey
                  request_nonce := s.nonce
                  request_slot := ctx.slot
                  total_bet := total_bet
                  bets := bets
                  has_room_card := room_card.isSome
                  room_card := room_card.getD 0
                  vrf_result_before := before })

/-- Everything `settle_play` does before the commission-ledger update:
account re-validation, the freshness check `after != before`, settlement
seed derivation, outcome computation and payout transfer. -/
def settle_core (h : HashFn) (s : GameState) (p : PendingPlay) (ctx : SettleCtx) :
    Except ErrorCode (GameState × Nat × Nat) :=
  if ctx.poolKey ≠ s.pool_token_account then .error .InvalidPoolAccount
  else if ctx.vrfKey ≠ s.vrf then .error .InvalidVrfAccount
  else if p.player ≠ ctx.playerKey then .error .PlayerMismatch
  else if p.player_token_account ≠ ctx.playerTokenKey then .error .PlayerTokenMismatch
  else if p.pool_token_account ≠ ctx.poolKey then .error .InvalidPoolAccount
  else
    match read_vrf_bytes ctx.vrfKey s.vrf s.vrf_result_offset ctx.vrfData with
    | .error e => .error e
    | .ok after =>
      if after = p.vrf_result_before then .error .VrfNotUpdated
      else
        let seed := derive_seed h p.vrf_result_before (some p.player)
          (some p.request_nonce) (some p.request_slot) (some after)
        match compute_total_payout h seed p.bets s with
        | .error e => .error e
        | .ok (payout, _, _, _) =>
          if 0 < payout then
            if ctx.poolAmount < payout then .error .InsufficientPool
            else if s.total_pool < payout then .error .InsufficientPool
            else
              match checkedSubU64 s.total_pool payout with
              | .error e => .error e
              | .ok tp2 => .ok ({ s with total_pool := tp2 }, p.total_bet, payout)
          else .ok (s, p.total_bet, payout)

/-- Source `settle_play`: settlement of a pending two-phase play; success
consumes the pending record (the account is closed by the runtime). -/
def settle_play (h : HashFn) (s : GameState) (p : PendingPlay) (ctx : SettleCtx) :
    Except ErrorCode GameState :=
  match settle_core h s p ctx with
  | .error e => .error e
  | .ok (s2, total_bet, payout) =>
    apply_agent_commission s2 (if p.has_room_card then some p.room_card else none)
      total_bet payout

/-- Anchor's transaction semantics: a returned error aborts the instruction
and every account write is rolled back, so the persisted state is the
pre-call state. -/
def applyTx (s : GameState) (r : Except ErrorCode GameState) : GameState :=
  match r with
  | .ok s' => s'
  | .error _ => s

/-- `applyTx` for operations that also return a pending record. -/
def applyTxP (s : GameState) (r : Except ErrorCode (GameState × PendingPlay)) : GameState :=
  match r with
  | .ok (s', _) => s'
  | .error _ => s

/-- One state-mutating operation of the program (the operations named by the
ledger-floor claim), with all external inputs packed into the constructor. -/
inductive Op where
  | becomeAgent (agentKey stake_amount : Nat) (now : Int)
  | redeemAgentStake (agentKey vault : Nat)
  | withdrawCommission (agentKey : Nat) (now : Int) (poolKey poolAmount : Nat)
  | playOp (h : HashFn) (bets : List Nat) (room_card : Option Nat) (ctx : PlayCtx)
  | settlePlayOp (h : HashFn) (p : PendingPlay) (ctx : SettleCtx)

/-- Dispatch one operation. -/
def runOp (s : GameState) : Op → Except ErrorCode GameState
  | .becomeAgent k amt now => become_agent s k amt now
  | .redeemAgentStake k vault => redeem_agent_stake s k vault
  | .withdrawCommission k now pk pa => withdraw_commission s k now pk pa
  | .playOp h bets card ctx => play h s bets card ctx
  | .settlePlayOp h p ctx => settle_play h s p ctx

/-- One transaction: run the operation and roll back on error. -/
def stepOp (s : GameState) (op : Op) : GameState := applyTx s (runOp s op)

/-- Run a sequence of operations. -/
def runOps (s : GameState) (ops : List Op) : GameState := ops.foldl stepOp s

/-- The ledger-floor invariant: every agent's accrued commission is
non-negative. -/
def commissionsNonneg (s : GameState) : Prop := ∀ a ∈ s.agents, 0 ≤ a.commission

/-- The ledger-floor invariant is decidable (used to check concrete states). -/
instance (s : GameState) : Decidable (commissionsNonneg s) :=
  inferInstanceAs (Decidable (∀ a ∈ s.agents, 0 ≤ a.commission))

/-- Cumulative weight: sum of the first `k` table entries. -/
def cumw (w : List Nat) (k : Nat) : Nat := (w.take k).sum

/-! ## Concrete fixtures used by witnesses and counterexamples -/

/-- The all-zero 32-byte digest. -/
def seedZero : List Nat := List.replicate 32 0

/-- A 32-byte digest whose first 16 bits decode to 9000 (drawing symbol 5
under the default weights). -/
def seed9000 : List Nat := 40 :: 35 :: List.replicate 30 0

/-- A constant hash function: every draw yields symbol 0. -/
def hZero : HashFn := fun _ => seedZero

/-- A hash function whose first two chain steps (counters 0 and 1) yield
symbol 5 and later steps symbol 0, so the first spin draws `[5, 5, 0]`. -/
def hW : HashFn := fun parts =>
  match parts with
  | [_, _, cb] => if cb = leBytes8 0 ∨ cb = leBytes8 1 then seed9000 else seedZero
  | _ => seedZero

/-- A freshly initialized game with pool key 1 and a large pool balance. -/
def egState : GameState := initGameState 9 8 1 1000000000

/-- The bet vector of spec scenarios A and B: 1000 on symbol 0. -/
def bets0 : List Nat := [1000, 0, 0, 0, 0, 0]

/-- An active agent with room card 7 and commission 5. -/
def egAgent : Agent :=
  { pubkey := 1
    stake := 0
    room_card := 7
    commission := 5
    stake_time := 0
    last_settlement := 0
    is_active := true }

/-- A game whose agent list is at the `MAX_AGENT_COUNT` cap. -/
def capState : GameState := { egState with agents := List.replicate 48 egAgent }

/-- A game with one active agent (commission 5) and commission rate 100. -/
def cexState : GameState := { egState with agents := [egAgent], commission_rate := 100 }

/-- A game with one active agent holding commission 500, rate 10 (spec
scenarios C and D). -/
def scState : GameState :=
  { egState with agents := [{ egAgent with commission := 500 }] }

/-- A play context matching `egState`'s pool and VRF keys. -/
def ctx0 : PlayCtx :=
  { player := 3
    playerTokenKey := 4
    poolKey := 1
    vrfKey := 0
    vrfData := seedZero
    slot := 0
    poolAmount := 1000000000 }

/-- A settle context matching `egState`'s pool and VRF keys. -/
def sctx0 : SettleCtx :=
  { playerKey := 3
    playerTokenKey := 4
    poolKey := 1
    vrfKey := 0
    vrfData := seedZero
    poolAmount := 1000000000 }

/-- A game whose pool counter is at the top of the `u64` range (one more
deposit overflows the checked addition). -/
def ovState : GameState := { egState with total_pool := U64_LIMIT - 1 }

/-- A pending play whose recorded pre-image differs from the current oracle
bytes (settleable). -/
def pFresh : PendingPlay :=
  { player := 3
    player_token_account := 4
    pool_token_account := 1
    request_nonce := 0
    request_slot := 0
    total_bet := 1000
    bets := bets0
    has_room_card := true
    room_card := 77
    vrf_result_before := seed9000 }

/-- A pending play whose recorded pre-image equals the current oracle bytes
(stale). -/
def pStale : PendingPlay := { pFresh with vrf_result_before := seedZero }

/-! ## Theorems -/

/-- Claim C10: whenever the agent list already holds 48 entries,
`become_agent` fails with `TooManyAgents` for every caller and every stake
at or above the threshold — the cap check (line 225) precedes the
existing-agent lookup (line 234), so even a registered agent topping up is
rejected. -/
theorem c10_agent_cap (s : GameState) (k stake : Nat) (now : Int)
    (hlen : s.agents.length = 48) (hst : s.stake_threshold ≤ stake) :
    become_agent s k stake now = .error .TooManyAgents := by
  unfold become_agent
  rw [if_neg (by simp [hst]), if_pos (by simp [hlen, MAX_AGENT_COUNT])]

/-- Witness for C10 at a concrete capped state, calling as an agent already
in the list (`egAgent.pubkey = 1`) with exactly the threshold stake. -/
theorem c10_agent_cap_witness :
    capState.agents.length = 48 ∧ capState.stake_threshold ≤ 1000000 ∧
      become_agent capState 1 1000000 0 = .error .TooManyAgents :=
  ⟨by decide, by decide, c10_agent_cap capState 1 1000000 0 (by decide) (by decide)⟩

/-- Claim C6: for every pending play (hence every stored bet vector), when
the supplied accounts match the record and the oracle bytes read at
settlement equal the recorded pre-image `vrf_result_before`, `settle_play`
fails with `VrfNotUpdated`; under Anchor's abort semantics the pending
record is not consumed. -/
theorem c6_settle_freshness (h : HashFn) (s : GameState) (p : PendingPlay)
    (ctx : SettleCtx)
    (h1 : ctx.poolKey = s.pool_token_account) (h2 : ctx.vrfKey = s.vrf)
    (h3 : p.player = ctx.playerKey) (h4 : p.player_token_account = ctx.playerTokenKey)
    (h5 : p.pool_token_account = ctx.poolKey)
    (hread : read_vrf_bytes ctx.vrfKey s.vrf s.vrf_result_offset ctx.vrfData
      = .ok p.vrf_result_before) :
    settle_play h s p ctx = .error .VrfNotUpdated := by
  unfold settle_play settle_core
  rw [if_neg (by simp [h1]), if_neg (by simp [h2]), if_neg (by simp [h3]),
    if_neg (by simp [h4]), if_neg (by simp [h5]), hread]
  simp

/-- Witness for C6: the stale pending record `pStale` against `egState`. -/
theorem c6_settle_freshness_witness :
    read_vrf_bytes sctx0.vrfKey egState.vrf egState.vrf_result_offset sctx0.vrfData
        = .ok pStale.vrf_result_before ∧
      settle_play hZero egState pStale sctx0 = .error .VrfNotUpdated :=
  ⟨by decide, c6_settle_freshness hZero egState pStale sctx0 (by decide) (by decide)
    (by decide) (by decide) (by decide) (by decide)⟩

/-- The checked `u32` weight summation succeeds and returns the plain sum
whenever it stays below the `u32` bound. -/
theorem weight_sum_checked_ok (w : List Nat) (acc : Nat)
    (hacc : acc + w.sum < U32_LIMIT) : weight_sum_checked w acc = .ok (acc + w.sum) := by
  induction w generalizing acc with
  | nil => simp [weight_sum_checked]
  | cons x rest ih =>
    have hx : acc + x < U32_LIMIT := by simp only [List.sum_cons] at hacc; omega
    have hstep : checkedAddU32 acc x = .ok (acc + x) := by rw [checkedAddU32, if_pos hx]
    rw [weight_sum_checked]
    simp only [hstep]
    rw [ih (acc + x) (by simp only [List.sum_cons] at hacc ⊢; omega)]
    simp only [Except.ok.injEq, List.sum_cons]
    omega

/-- Claim C9: for every 32-byte digest and 6-entry weight table (entries in
the `u16` range), `pick_symbol` fails with `InvalidSymbolWeights` exactly
when the weight sum is zero, and otherwise returns the first symbol index
whose cumulative weight exceeds the first 16 bits of the digest reduced
modulo the weight sum, with index 5 as the (unreachable but present)
fallback when no entry matches. -/
theorem c9_pick_symbol (seed w : List Nat) (hlen : w.length = 6)
    (hw : ∀ x ∈ w, x < 65536) :
    (w.sum = 0 → pick_symbol seed w = .error .InvalidSymbolWeights) ∧
    (∀ e, pick_symbol seed w = .error e → w.sum = 0 ∧ e = .InvalidSymbolWeights) ∧
    (0 < w.sum → ∃ i, pick_symbol seed w = .ok i ∧
      ((u16le seed % w.sum < cumw w (i + 1) ∧
          ∀ j < i, cumw w (j + 1) ≤ u16le seed % w.sum) ∨
        (i = 5 ∧ ∀ j < 6, cumw w (j + 1) ≤ u16le seed % w.sum))) := by
  match w, hlen with
  | [a, b, c, d, e, f], _ =>
  have ha : a < 65536 := hw a (by simp)
  have hb : b < 65536 := hw b (by simp)
  have hc : c < 65536 := hw c (by simp)
  have hd : d < 65536 := hw d (by simp)
  have he : e < 65536 := hw e (by simp)
  have hf : f < 65536 := hw f (by simp)
  have hsum : weight_sum_checked [a, b, c, d, e, f] 0 = .ok (a + b + c + d + e + f) := by
    rw [weight_sum_checked_ok]
    · simp only [Except.ok.injEq, List.sum_cons, List.sum_nil]; omega
    · simp only [List.sum_cons, List.sum_nil, U32_LIMIT]; omega
  have hS : ([a, b, c, d, e, f] : List Nat).sum = a + b + c + d + e + f := by
    simp only [List.sum_cons, List.sum_nil]; omega
  refine ⟨?_, ?_, ?_⟩
  · intro h0
    rw [hS] at h0
    simp only [pick_symbol, hsum]
    rw [if_pos (by omega)]
  · intro er her
    simp only [pick_symbol, hsum] at her
    by_cases hz : 0 < a + b + c + d + e + f
    · rw [if_neg (not_not_intro hz)] at her
      cases hwalk : pick_walk [a, b, c, d, e, f] 0 (u16le seed % (a + b + c + d + e + f)) with
      | some i => rw [hwalk] at her; cases her
      | none => rw [hwalk] at her; cases her
    · rw [if_pos hz] at her
      cases her
      exact ⟨by rw [hS]; omega, rfl⟩
  · intro hpos
    rw [hS] at hpos
    have hr : u16le seed % (a + b + c + d + e + f) < a + b + c + d + e + f :=
      Nat.mod_lt _ hpos
    rw [hS]
    have hps : ∀ z, pick_walk [a, b, c, d, e, f] 0 (u16le seed % (a + b + c + d + e + f))
        = some z → pick_symbol seed [a, b, c, d, e, f] = .ok z := by
      intro z hz
      simp only [pick_symbol, hsum]
      rw [if_neg (not_not_intro hpos), hz]
    by_cases h0 : u16le seed % (a + b + c + d + e + f) < a
    · refine ⟨0, hps 0 (by simp [pick_walk, h0]), Or.inl ⟨?_, ?_⟩⟩
      · simp [cumw]; omega
      · intro j hj; omega
    · by_cases h1 : u16le seed % (a + b + c + d + e + f) - a < b
      · refine ⟨1, hps 1 (by simp [pick_walk, h0, h1]), Or.inl ⟨?_, ?_⟩⟩
        · simp [cumw]; omega
        · intro j hj; interval_cases j <;> simp [cumw] <;> omega
      · by_cases h2 : u16le seed % (a + b + c + d + e + f) - a - b < c
        · refine ⟨2, hps 2 (by simp [pick_walk, h0, h1, h2]), Or.inl ⟨?_, ?_⟩⟩
          · simp [cumw]; omega
          · intro j hj; interval_cases j <;> simp [cumw] <;> omega
        · by_cases h3 : u16le seed % (a + b + c + d + e + f) - a - b - c < d
          · refine ⟨3, hps 3 (by simp [pick_walk, h0, h1, h2, h3]), Or.inl ⟨?_, ?_⟩⟩
            · simp [cumw]; omega
            · intro j hj; interval_cases j <;> simp [cumw] <;> omega
          · by_cases h4 : u16le seed % (a + b + c + d + e + f) - a - b - c - d < e
            · refine ⟨4, hps 4 (by simp [pick_walk, h0, h1, h2, h3, h4]), Or.inl ⟨?_, ?_⟩⟩
              · simp [cumw]; omega
              · intro j hj; interval_cases j <;> simp [cumw] <;> omega
            · have h5 : u16le seed % (a + b + c + d + e + f) - a - b - c - d - e < f := by
                omega
              refine ⟨5, hps 5 (by simp [pick_walk, h0, h1, h2, h3, h4, h5]),
                Or.inl ⟨?_, ?_⟩⟩
              · simp [cumw]; omega
              · intro j hj; interval_cases j <;> simp [cumw] <;> omega

/-- Witness for C9: the digest whose first 16 bits decode to 9000 against the
default weight table (drawing symbol 5). -/
theorem c9_pick_symbol_witness :
    ([2500, 2500, 250, 1600, 2150, 1000] : List Nat).length = 6 ∧
    (∀ x ∈ ([2500, 2500, 250, 1600, 2150, 1000] : List Nat), x < 65536) ∧
    ∃ i, pick_symbol seed9000 [2500, 2500, 250, 1600, 2150, 1000] = .ok i ∧
      ((u16le seed9000 % ([2500, 2500, 250, 1600, 2150, 1000] : List Nat).sum <
          cumw [2500, 2500, 250, 1600, 2150, 1000] (i + 1) ∧
        ∀ j < i, cumw [2500, 2500, 250, 1600, 2150, 1000] (j + 1) ≤
          u16le seed9000 % ([2500, 2500, 250, 1600, 2150, 1000] : List Nat).sum) ∨
       (i = 5 ∧ ∀ j < 6, cumw [2500, 2500, 250, 1600, 2150, 1000] (j + 1) ≤
          u16le seed9000 % ([2500, 2500, 250, 1600, 2150, 1000] : List Nat).sum)) :=
  ⟨by decide, by decide,
    (c9_pick_symbol seed9000 [2500, 2500, 250, 1600, 2150, 1000]
      (by decide) (by decide)).2.2 (by decide)⟩

/-- The minimum-bet loop errors whenever some listed slot is non-zero but
below the minimum. -/
theorem check_min_bets_err (b : List Nat) (m : Nat) (l : List Nat)
    (hx : ∃ i ∈ l, 0 < b.getD i 0 ∧ b.getD i 0 < m) :
    check_min_bets b m l = .error .BetBelowMinimum := by
  induction l with
  | nil => simp at hx
  | cons i rest ih =>
    rw [check_min_bets]
    by_cases hi : 0 < b.getD i 0 ∧ b.getD i 0 < m
    · rw [if_pos hi]
    · rw [if_neg hi]
      apply ih
      rcases hx with ⟨j, hj, hjb⟩
      rcases List.mem_cons.mp hj with hji | hjr
      · exact absurd (hji ▸ hjb) hi
      · exact ⟨j, hjr, hjb⟩

/-- `validate_bets` rejects every vector with a wagered trigger slot, a zero
total, or (when a minimum is configured) an undersized non-zero slot. -/
theorem validate_bets_err (b : List Nat) (m : Nat)
    (hbad : b.getD 5 0 ≠ 0 ∨ bets_total b = .ok 0 ∨
      (0 < m ∧ ∃ i < 5, 0 < b.getD i 0 ∧ b.getD i 0 < m)) :
    ∃ er, validate_bets b m = .error er := by
  by_cases h5 : b.getD 5 0 ≠ 0
  · exact ⟨.InvalidBetTable, by rw [validate_bets, if_pos h5]⟩
  · rw [validate_bets, if_neg h5]
    rcases hbad with hb | hb | hb
    · exact absurd hb h5
    · refine ⟨.InvalidAmount, ?_⟩
      simp only [hb]
      rw [if_pos (by omega)]
    · rcases hb with ⟨hm, i, hi5, hpos, hlt⟩
      cases ht : bets_total b with
      | error er => exact ⟨er, rfl⟩
      | ok total =>
        by_cases htz : 0 < total
        · refine ⟨.BetBelowMinimum, ?_⟩
          simp only [ht]
          rw [if_neg (not_not_intro htz), if_pos hm]
          refine check_min_bets_err b m [0, 1, 2, 3, 4] ⟨i, ?_, hpos, hlt⟩
          interval_cases i <;> simp
        · refine ⟨.InvalidAmount, ?_⟩
          simp only [ht]
          rw [if_pos htz]

/-- Claim C8: for every bet vector whose reserved trigger slot (index 5) is
non-zero, or whose total is zero, or that has a non-zero slot below
`min_bet` when `min_bet > 0`, both `play` and `request_play` reject the
call, and the rejected transaction leaves the state (hence the pool total)
unchanged. -/
theorem c8_bet_validation (h : HashFn) (s : GameState) (bets : List Nat)
    (cardp cardr : Option Nat) (ctx : PlayCtx)
    (hbad : bets.getD 5 0 ≠ 0 ∨ bets_total bets = .ok 0 ∨
      (0 < s.min_bet ∧ ∃ i < 5, 0 < bets.getD i 0 ∧ bets.getD i 0 < s.min_bet)) :
    (∃ er, validate_bets bets s.min_bet = .error er) ∧
    (∀ s', play h s bets cardp ctx ≠ .ok s') ∧
    (∀ r, request_play s bets cardr ctx ≠ .ok r) ∧
    applyTx s (play h s bets cardp ctx) = s ∧
    applyTxP s (request_play s bets cardr ctx) = s := by
  obtain ⟨er, her⟩ := validate_bets_err bets s.min_bet hbad
  have hplay : play h s bets cardp ctx = .error er := by
    rw [play, play_core, her]
  have hreq : request_play s bets cardr ctx = .error er := by
    unfold request_play
    rw [her]
  refine ⟨⟨er, her⟩, ?_, ?_, ?_, ?_⟩
  · intro s' hs'; rw [hplay] at hs'; cases hs'
  · intro r hr; rw [hreq] at hr; cases hr
  · rw [hplay]; rfl
  · rw [hreq]; rfl

/-- Witness for C8: a vector wagering on the reserved trigger slot. -/
theorem c8_bet_validation_witness :
    (([0, 0, 0, 0, 0, 7] : List Nat).getD 5 0 ≠ 0) ∧
      applyTx egState (play hZero egState [0, 0, 0, 0, 0, 7] none ctx0) = egState ∧
      applyTxP egState (request_play egState [0, 0, 0, 0, 0, 7] none ctx0) = egState := by
  have h := c8_bet_validation hZero egState [0, 0, 0, 0, 0, 7] none none ctx0
    (Or.inl (by decide))
  exact ⟨by decide, h.2.2.2.1, h.2.2.2.2⟩

/-- Claim C2 (amended): for the agent matched by the routing code, with
`net = payout - stake`: if `net = 0` or the rate is 0 the commission is
unchanged; if `net < 0` the commission increases by
`floor(|net| * rate / 100)` and any `i64` overflow (of the delta or of the
checked addition) is a `MathOverflow` error; if `net > 0` and the
commission is non-zero then, *provided the delta fits in `i64`*, the
commission becomes `max(0, commission - floor(net * rate / 100))`, and
otherwise — the case the original claim omits — the operation fails with
`MathOverflow`; if `net > 0` and the commission is zero, nothing changes. -/
theorem c2_amended_commission (s : GameState) (card tb p i : Nat)
    (hfind : find_index (agentCommissionPred card) s.agents = some i)
    (htb : tb < U64_LIMIT) (hp : p < U64_LIMIT) (hrate : s.commission_rate < 256)
    (hclo : I64_MIN ≤ (s.agents.getD i dAgent).commission)
    (hchi : (s.agents.getD i dAgent).commission ≤ I64_MAX) :
    (s.commission_rate = 0 ∨ p = tb →
      apply_agent_commission s (some card) tb p = .ok s) ∧
    (p < tb → 0 < s.commission_rate →
      (((tb - p) * s.commission_rate / 100 : Nat) : Int) ≤ I64_MAX →
      (s.agents.getD i dAgent).commission + (((tb - p) * s.commission_rate / 100 : Nat) : Int) ≤ I64_MAX →
      apply_agent_commission s (some card) tb p =
        .ok (setAgentCommission s i
          ((s.agents.getD i dAgent).commission + (((tb - p) * s.commission_rate / 100 : Nat) : Int)))) ∧
    (p < tb → 0 < s.commission_rate →
      (I64_MAX < (((tb - p) * s.commission_rate / 100 : Nat) : Int) ∨
        I64_MAX < (s.agents.getD i dAgent).commission + (((tb - p) * s.commission_rate / 100 : Nat) : Int)) →
      apply_agent_commission s (some card) tb p = .error .MathOverflow) ∧
    (tb < p → 0 < s.commission_rate → (s.agents.getD i dAgent).commission ≠ 0 →
      ((((p - tb) * s.commission_rate / 100 : Nat) : Int) ≤ I64_MAX →
        apply_agent_commission s (some card) tb p =
          .ok (setAgentCommission s i
            (max ((s.agents.getD i dAgent).commission - (((p - tb) * s.commission_rate / 100 : Nat) : Int)) 0))) ∧
      (I64_MAX < (((p - tb) * s.commission_rate / 100 : Nat) : Int) →
        apply_agent_commission s (some card) tb p = .error .MathOverflow)) ∧
    (tb < p → (s.agents.getD i dAgent).commission = 0 →
      apply_agent_commission s (some card) tb p = .ok s) := by
  have hbody : apply_agent_commission s (some card) tb p =
      (if s.commission_rate = 0 then .ok s
       else if ((p : Int) - (tb : Int)) < 0 then
        match checkedMulU128 (-((p : Int) - (tb : Int))).toNat s.commission_rate with
        | .error e => .error e
        | .ok prod =>
          match i64TryFrom (prod / 100) with
          | .error e => .error e
          | .ok di =>
            match i64CheckedAdd (s.agents.getD i dAgent).commission di with
            | .error e => .error e
            | .ok v => .ok (setAgentCommission s i v)
       else if 0 < ((p : Int) - (tb : Int)) then
        if (s.agents.getD i dAgent).commission = 0 then .ok s
        else
          match checkedMulU128 ((p : Int) - (tb : Int)).toNat s.commission_rate with
          | .error e => .error e
          | .ok prod =>
            match i64TryFrom (prod / 100) with
            | .error e => .error e
            | .ok di =>
              .ok (setAgentCommission s i
                (max (i64SaturatingSub (s.agents.getD i dAgent).commission di) 0))
       else .ok s) := by
    rw [apply_agent_commission]
    simp only [hfind]
  refine ⟨?_, ?_, ?_, ?_, ?_⟩
  · rintro (hr | hpt)
    · rw [hbody, if_pos hr]
    · by_cases hr : s.commission_rate = 0
      · rw [hbody, if_pos hr]
      · rw [hbody, if_neg hr, if_neg (by omega), if_neg (by omega)]
  · intro hlt hr hd1 hd2
    have htn : (-((p : Int) - (tb : Int))).toNat = tb - p := by omega
    have hbnd : (tb - p) * s.commission_rate < U128_LIMIT := by
      calc (tb - p) * s.commission_rate ≤ (tb - p) * 255 :=
            Nat.mul_le_mul_left _ (by omega)
        _ ≤ (U64_LIMIT - 1) * 255 := Nat.mul_le_mul_right _ (by omega)
        _ < U128_LIMIT := by norm_num [U64_LIMIT, U128_LIMIT]
    have hmul : checkedMulU128 (-((p : Int) - (tb : Int))).toNat s.commission_rate
        = .ok ((tb - p) * s.commission_rate) := by
      rw [htn, checkedMulU128, if_pos hbnd]
    rw [hbody, if_neg (by omega), if_pos (by omega), hmul]
    simp only
    rw [i64TryFrom, if_pos hd1]
    simp only
    rw [i64CheckedAdd, if_pos ⟨by omega, hd2⟩]
  · intro hlt hr hd
    have htn : (-((p : Int) - (tb : Int))).toNat = tb - p := by omega
    have hbnd : (tb - p) * s.commission_rate < U128_LIMIT := by
      calc (tb - p) * s.commission_rate ≤ (tb - p) * 255 :=
            Nat.mul_le_mul_left _ (by omega)
        _ ≤ (U64_LIMIT - 1) * 255 := Nat.mul_le_mul_right _ (by omega)
        _ < U128_LIMIT := by norm_num [U64_LIMIT, U128_LIMIT]
    have hmul : checkedMulU128 (-((p : Int) - (tb : Int))).toNat s.commission_rate
        = .ok ((tb - p) * s.commission_rate) := by
      rw [htn, checkedMulU128, if_pos hbnd]
    rw [hbody, if_neg (by omega), if_pos (by omega), hmul]
    simp only
    rcases hd with hd | hd
    · rw [i64TryFrom, if_neg (by omega)]
    · by_cases hdel : (((tb - p) * s.commission_rate / 100 : Nat) : Int) ≤ I64_MAX
      · rw [i64TryFrom, if_pos hdel]
        simp only
        rw [i64CheckedAdd, if_neg (by omega)]
      · rw [i64TryFrom, if_neg hdel]
  · intro hlt hr hcz
    have htn : ((p : Int) - (tb : Int)).toNat = p - tb := by omega
    have hbnd : (p - tb) * s.commission_rate < U128_LIMIT := by
      calc (p - tb) * s.commission_rate ≤ (p - tb) * 255 :=
            Nat.mul_le_mul_left _ (by omega)
        _ ≤ (U64_LIMIT - 1) * 255 := Nat.mul_le_mul_right _ (by omega)
        _ < U128_LIMIT := by norm_num [U64_LIMIT, U128_LIMIT]
    have hmul : checkedMulU128 ((p : Int) - (tb : Int)).toNat s.commission_rate
        = .ok ((p - tb) * s.commission_rate) := by
      rw [htn, checkedMulU128, if_pos hbnd]
    constructor
    · intro hd1
      rw [hbody, if_neg (by omega), if_neg (by omega), if_pos (by omega), if_neg hcz, hmul]
      simp only
      rw [i64TryFrom, if_pos hd1]
      simp only
      have hsat : max (i64SaturatingSub (s.agents.getD i dAgent).commission
          (((p - tb) * s.commission_rate / 100 : Nat) : Int)) 0
          = max ((s.agents.getD i dAgent).commission -
              (((p - tb) * s.commission_rate / 100 : Nat) : Int)) 0 := by
        simp only [i64SaturatingSub, I64_MIN, I64_MAX] at hclo hchi hd1 ⊢
        omega
      rw [hsat]
    · intro hd1
      rw [hbody, if_neg (by omega), if_neg (by omega), if_pos (by omega), if_neg hcz, hmul]
      simp only
      rw [i64TryFrom, if_neg (by omega)]
  · intro hlt hcz
    by_cases hr : s.commission_rate = 0
    · rw [hbody, if_pos hr]
    · rw [hbody, if_neg hr, if_neg (by omega), if_pos (by omega), if_pos hcz]

/-- Counterexample to C2 as frozen: with stake 1, payout `2^63 + 1` and rate
100, the claim predicts the commission becomes `max(0, 5 - 2^63) = 0`, but
the code fails with `MathOverflow` because the delta does not fit in `i64`. -/
theorem c2_commission_cex :
    apply_agent_commission cexState (some 7) 1 9223372036854775809 = .error .MathOverflow ∧
      apply_agent_commission cexState (some 7) 1 9223372036854775809 ≠
        .ok (setAgentCommission cexState 0 0) := by
  constructor <;> decide

/-- Witness for the amended C2: spec scenarios C (claw-back to 400) and D
(accrual to 600) on a concrete agent. -/
theorem c2_amended_commission_witness :
    apply_agent_commission scState (some 7) 1000 2000 =
      .ok (setAgentCommission scState 0
        (max ((scState.agents.getD 0 dAgent).commission -
          (((2000 - 1000) * scState.commission_rate / 100 : Nat) : Int)) 0)) ∧
    apply_agent_commission scState (some 7) 1000 0 =
      .ok (setAgentCommission scState 0
        ((scState.agents.getD 0 dAgent).commission +
          (((1000 - 0) * scState.commission_rate / 100 : Nat) : Int))) := by
  have h := c2_amended_commission scState 7 1000 2000 0 (by decide) (by decide) (by decide)
    (by decide) (by decide) (by decide)
  have h2 := c2_amended_commission scState 7 1000 0 0 (by decide) (by decide) (by decide)
    (by decide) (by decide) (by decide)
  exact ⟨(h.2.2.2.1 (by decide) (by decide) (by decide)).1 (by decide),
    h2.2.1 (by decide) (by decide) (by decide) (by decide)⟩

/-- A draw of `[5, 5, 0]` pays nothing on the scenario-B bet vector: the only
wagered symbol (0) matches once, and no payout rate is consulted. -/
theorem spin_payout_bets0_5 (s : GameState) :
    compute_spin_payout [1000, 0, 0, 0, 0, 0] [5, 5, 0] s = .ok 0 := by
  simp [compute_spin_payout, spin_payout_step, spin_match_count]

/-- Claim C1 (scenario B): with bets `[1000,0,0,0,0,0]` and a first draw of
`[5, 5, 0]`, the base payout of that draw is 0, the chain continues (the
trigger symbol 5 is present and neither bound is hit), and the next
iteration is entered with multiplier 2 — the spec's basis-100 rendering of
which is 200. -/
theorem c1_scenario_b (h : HashFn) (s : GameState) (seed cur' : List Nat) (c' : Nat)
    (hmax : 1 ≤ s.max_auto_spins)
    (hspin : spinOnce h s seed 0 = .ok (cur', c', [5, 5, 0])) :
    compute_spin_payout [1000, 0, 0, 0, 0, 0] [5, 5, 0] s = .ok 0 ∧
    compute_total_payout_aux h [1000, 0, 0, 0, 0, 0] s (s.max_auto_spins + 1) seed 0 1 0 0
      = compute_total_payout_aux h [1000, 0, 0, 0, 0, 0] s s.max_auto_spins cur' c' 2 1 0 ∧
    basis100 2 = 200 := by
  refine ⟨spin_payout_bets0_5 s, ?_, rfl⟩
  rw [compute_total_payout_aux]
  rw [hspin]
  simp only [spin_payout_bets0_5 s]
  norm_num [checkedMulU128, u64TryFrom, checkedAddU64, checkedMulU8, checkedAddU8,
    U128_LIMIT, U64_LIMIT, U8_LIMIT]
  intro h0
  exact absurd h0 (by omega)

/-- Witness for C1: a concrete hash function whose first spin draws
`[5, 5, 0]` from the all-zero seed. -/
theorem c1_scenario_b_witness :
    1 ≤ egState.max_auto_spins ∧
    spinOnce hW egState seedZero 0 = .ok (seedZero, 3, [5, 5, 0]) ∧
    compute_total_payout_aux hW [1000, 0, 0, 0, 0, 0] egState
        (egState.max_auto_spins + 1) seedZero 0 1 0 0
      = compute_total_payout_aux hW [1000, 0, 0, 0, 0, 0] egState
        egState.max_auto_spins seedZero 3 2 1 0 :=
  ⟨by decide, by decide,
    (c1_scenario_b hW egState seedZero seedZero 3 (by decide) (by decide)).2.1⟩

/-- Successful checked `u64` addition returns the sum. -/
theorem checkedAddU64_ok (a b v : Nat) (h : checkedAddU64 a b = .ok v) : v = a + b := by
  rw [checkedAddU64] at h
  split at h
  · cases h; rfl
  · cases h

/-- Successful checked `u8` multiplication returns the product. -/
theorem checkedMulU8_ok (a b v : Nat) (h : checkedMulU8 a b = .ok v) : v = a * b := by
  rw [checkedMulU8] at h
  split at h
  · cases h; rfl
  · cases h

/-- Successful checked `u8` addition returns the sum. -/
theorem checkedAddU8_ok (a b v : Nat) (h : checkedAddU8 a b = .ok v) : v = a + b := by
  rw [checkedAddU8] at h
  split at h
  · cases h; rfl
  · cases h

/-- One three-reel draw advances the chain counter by exactly 3. -/
theorem spinOnce_counter (h : HashFn) (s : GameState) (cur : List Nat) (c : Nat)
    (cur' : List Nat) (c' : Nat) (reels : List Nat)
    (hok : spinOnce h s cur c = .ok (cur', c', reels)) : c' = c + 3 := by
  rw [spinOnce] at hok
  cases hA : checkedAddU64 c 1 with
  | error e => simp only [hA] at hok; exact Except.noConfusion hok
  | ok c1 =>
    simp only [hA] at hok
    have hc1 : c1 = c + 1 := checkedAddU64_ok c 1 c1 hA
    cases hB : pick_symbol (next_seed h cur c) s.symbol_weights with
    | error e => simp only [hB] at hok; exact Except.noConfusion hok
    | ok r1 =>
      simp only [hB] at hok
      cases hC : checkedAddU64 c1 1 with
      | error e => simp only [hC] at hok; exact Except.noConfusion hok
      | ok c2 =>
        simp only [hC] at hok
        have hc2 : c2 = c1 + 1 := checkedAddU64_ok c1 1 c2 hC
        cases hD : pick_symbol (next_seed h (next_seed h cur c) c1) s.symbol_weights with
        | error e => simp only [hD] at hok; exact Except.noConfusion hok
        | ok r2 =>
          simp only [hD] at hok
          cases hE : checkedAddU64 c2 1 with
          | error e => simp only [hE] at hok; exact Except.noConfusion hok
          | ok c3 =>
            simp only [hE] at hok
            have hc3 : c3 = c2 + 1 := checkedAddU64_ok c2 1 c3 hE
            cases hF : pick_symbol
                (next_seed h (next_seed h (next_seed h cur c) c1) c2) s.symbol_weights with
            | error e => simp only [hF] at hok; exact Except.noConfusion hok
            | ok r3 =>
              simp only [hF, Except.ok.injEq, Prod.mk.injEq] at hok
              omega

/-- Doubling a proper divisor of 16 stays a divisor of 16 (the multiplier
only ever holds 1, 2, 4, 8 or 16). -/
theorem dvd16_double (mul : Nat) (hmul : mul ∣ 16) (hlt : mul < 16) : mul * 2 ∣ 16 := by
  have h16 : mul ≤ 16 := Nat.le_of_dvd (by norm_num) hmul
  interval_cases mul <;> revert hmul <;> decide

/-- Loop invariant of the chain loop: starting from a multiplier dividing 16
and a doubles count within the cap, a successful run reports a doubles
count within `max_auto_spins`, a multiplier dividing 16, and a chain
counter that equals three per draw performed. -/
theorem aux_ok_inv (h : HashFn) (bets : List Nat) (s : GameState) :
    ∀ fuel cur c mul doubles total t ce d m last,
      mul ∣ 16 → doubles ≤ s.max_auto_spins →
      compute_total_payout_aux h bets s fuel cur c mul doubles total
        = some (.ok (t, ce, d, m, last)) →
      d ≤ s.max_auto_spins ∧ m ∣ 16 ∧ doubles ≤ d ∧ ce = c + 3 * (d - doubles) + 3 := by
  intro fuel
  induction fuel with
  | zero =>
    intro cur c mul doubles total t ce d m last _ _ hok
    rw [compute_total_payout_aux] at hok
    cases hok
  | succ n ih =>
    intro cur c mul doubles total t ce d m last hmul hdub hok
    rw [compute_total_payout_aux] at hok
    cases h1 : spinOnce h s cur c with
    | error e => simp only [h1] at hok; simp at hok
    | ok res =>
      obtain ⟨cur', c', reels⟩ := res
      have hc' : c' = c + 3 := spinOnce_counter h s cur c cur' c' reels h1
      simp only [h1] at hok
      cases h2 : compute_spin_payout bets reels s with
      | error e => simp only [h2] at hok; simp at hok
      | ok payout =>
        simp only [h2] at hok
        cases h3 : checkedMulU128 payout mul with
        | error e => simp only [h3] at hok; simp at hok
        | ok scaled =>
          simp only [h3] at hok
          cases h4 : u64TryFrom scaled with
          | error e => simp only [h4] at hok; simp at hok
          | ok s64 =>
            simp only [h4] at hok
            cases h5 : checkedAddU64 total s64 with
            | error e => simp only [h5] at hok; simp at hok
            | ok total' =>
              simp only [h5] at hok
              by_cases hcont : reels.contains 5 = false
              · rw [if_pos hcont] at hok
                simp only [Option.some.injEq, Except.ok.injEq, Prod.mk.injEq] at hok
                obtain ⟨-, hce, hd, hm, -⟩ := hok
                subst hce hd hm
                exact ⟨hdub, hmul, le_refl _, by omega⟩
              · rw [if_neg hcont] at hok
                by_cases hstop : s.max_auto_spins ≤ doubles ∨ 16 ≤ mul
                · rw [if_pos hstop] at hok
                  simp only [Option.some.injEq, Except.ok.injEq, Prod.mk.injEq] at hok
                  obtain ⟨-, hce, hd, hm, -⟩ := hok
                  subst hce hd hm
                  exact ⟨hdub, hmul, le_refl _, by omega⟩
                · rw [if_neg hstop] at hok
                  push_neg at hstop
                  obtain ⟨hdlt, hmlt⟩ := hstop
                  cases h6 : checkedMulU8 mul 2 with
                  | error e => simp only [h6] at hok; simp at hok
                  | ok mul' =>
                    simp only [h6] at hok
                    cases h7 : checkedAddU8 doubles 1 with
                    | error e => simp only [h7] at hok; simp at hok
                    | ok doubles' =>
                      simp only [h7] at hok
                      have hm' : mul' = mul * 2 := checkedMulU8_ok mul 2 mul' h6
                      have hd' : doubles' = doubles + 1 := checkedAddU8_ok doubles 1 doubles' h7
                      have hdvd : mul' ∣ 16 := by rw [hm']; exact dvd16_double mul hmul hmlt
                      have hdub' : doubles' ≤ s.max_auto_spins := by omega
                      obtain ⟨hA, hB, hC, hD⟩ :=
                        ih cur' c' mul' doubles' total' t ce d m last hdvd hdub' hok
                      exact ⟨hA, hB, by omega, by omega⟩

/-- Fuel sufficiency: with fuel `max_auto_spins + 1 - doubles` or more, the
chain loop always returns (the loop body runs at most once per remaining
double plus one). -/
theorem aux_not_none (h : HashFn) (bets : List Nat) (s : GameState) :
    ∀ fuel cur c mul doubles total,
      doubles ≤ s.max_auto_spins → s.max_auto_spins + 1 ≤ fuel + doubles →
      compute_total_payout_aux h bets s fuel cur c mul doubles total ≠ none := by
  intro fuel
  induction fuel with
  | zero => intro cur c mul doubles total h1 h2; omega
  | succ n ih =>
    intro cur c mul doubles total hdub hfuel hnone
    rw [compute_total_payout_aux] at hnone
    cases h1 : spinOnce h s cur c with
    | error e => simp only [h1] at hnone; exact Option.noConfusion hnone
    | ok res =>
      obtain ⟨cur', c', reels⟩ := res
      simp only [h1] at hnone
      cases h2 : compute_spin_payout bets reels s with
      | error e => simp only [h2] at hnone; exact Option.noConfusion hnone
      | ok payout =>
        simp only [h2] at hnone
        cases h3 : checkedMulU128 payout mul with
        | error e => simp only [h3] at hnone; exact Option.noConfusion hnone
        | ok scaled =>
          simp only [h3] at hnone
          cases h4 : u64TryFrom scaled with
          | error e => simp only [h4] at hnone; exact Option.noConfusion hnone
          | ok s64 =>
            simp only [h4] at hnone
            cases h5 : checkedAddU64 total s64 with
            | error e => simp only [h5] at hnone; exact Option.noConfusion hnone
            | ok total' =>
              simp only [h5] at hnone
              by_cases hcont : reels.contains 5 = false
              · rw [if_pos hcont] at hnone; exact Option.noConfusion hnone
              · rw [if_neg hcont] at hnone
                by_cases hstop : s.max_auto_spins ≤ doubles ∨ 16 ≤ mul
                · rw [if_pos hstop] at hnone; exact Option.noConfusion hnone
                · rw [if_neg hstop] at hnone
                  push_neg at hstop
                  cases h6 : checkedMulU8 mul 2 with
                  | error e => simp only [h6] at hnone; exact Option.noConfusion hnone
                  | ok mul' =>
                    simp only [h6] at hnone
                    cases h7 : checkedAddU8 doubles 1 with
                    | error e => simp only [h7] at hnone; exact Option.noConfusion hnone
                    | ok doubles' =>
                      simp only [h7] at hnone
                      have hd' : doubles' = doubles + 1 :=
                        checkedAddU8_ok doubles 1 doubles' h7
                      exact ih cur' c' mul' doubles' total' (by omega) (by omega) hnone

/-- Claim C4: for every configuration, seed and bet vector, the chain loop
terminates within its fuel (never hits the artificial cutoff), and on
success the reported doubles count is at most `max_auto_spins` — so the
number of draws, `ce / 3 = d + 1`, never exceeds `max_auto_spins + 1` — and
the multiplier never exceeds 16, i.e. 1600 in the spec's basis-100
rendering. -/
theorem c4_chain_bound (h : HashFn) (seed bets : List Nat) (s : GameState) :
    compute_total_payout_aux h bets s (s.max_auto_spins + 1) seed 0 1 0 0 ≠ none ∧
    ∀ t ce d m last,
      compute_total_payout_aux h bets s (s.max_auto_spins + 1) seed 0 1 0 0
        = some (.ok (t, ce, d, m, last)) →
      d ≤ s.max_auto_spins ∧ ce = 3 * (d + 1) ∧ m ≤ 16 ∧ basis100 m ≤ 1600 ∧
        compute_total_payout h seed bets s = .ok (t, d, m, last) := by
  constructor
  · exact aux_not_none h bets s (s.max_auto_spins + 1) seed 0 1 0 0 (by omega) (by omega)
  · intro t ce d m last hok
    obtain ⟨hA, hB, hC, hD⟩ :=
      aux_ok_inv h bets s (s.max_auto_spins + 1) seed 0 1 0 0 t ce d m last
        (by norm_num) (by omega) hok
    have hm16 : m ≤ 16 := Nat.le_of_dvd (by norm_num) hB
    refine ⟨hA, by omega, hm16, by rw [basis100]; omega, ?_⟩
    rw [compute_total_payout, hok]

/-- Witness for C4: a concrete single-draw run under the constant hash. -/
theorem c4_chain_bound_witness :
    compute_total_payout_aux hZero bets0 egState (egState.max_auto_spins + 1)
      seedZero 0 1 0 0 ≠ none ∧
    (0 ≤ egState.max_auto_spins ∧ 3 = 3 * (0 + 1) ∧ 1 ≤ 16 ∧ basis100 1 ≤ 1600 ∧
      compute_total_payout hZero seedZero bets0 egState = .ok (2200, 0, 1, [0, 0, 0])) :=
  ⟨(c4_chain_bound hZero seedZero bets0 egState).1,
    by
      have h := (c4_chain_bound hZero seedZero bets0 egState).2 2200 3 0 1 [0, 0, 0]
        (by decide)
      exact ⟨Nat.zero_le _, h.2.1, h.2.2.1, h.2.2.2.1, h.2.2.2.2⟩⟩

/-- `iter().position` finds nothing when no element satisfies the
predicate. -/
theorem find_index_none (p : Agent → Bool) (l : List Agent)
    (hno : ∀ a ∈ l, p a = false) : find_index p l = none := by
  induction l with
  | nil => rfl
  | cons a rest ih =>
    rw [find_index, if_neg (by simp [hno a (List.mem_cons_self a rest)])]
    rw [ih (fun x hx => hno x (List.mem_cons_of_mem a hx))]
    rfl

/-- An agent that is not simultaneously active and carrying the card fails
the commission lookup predicate. -/
theorem agentCommissionPred_false (card : Nat) (a : Agent)
    (h : ¬(a.is_active = true ∧ a.room_card = card)) :
    agentCommissionPred card a = false := by
  rw [agentCommissionPred]
  cases hact : a.is_active
  · rfl
  · simp only [Bool.true_and]
    exact beq_eq_false_iff_ne.mpr (fun hc => h ⟨hact, hc⟩)

/-- With a routing code but no matching agent, the ledger update fails with
`InvalidRoomCard`. -/
theorem apply_agent_commission_no_match (s : GameState) (card tb p : Nat)
    (hno : find_index (agentCommissionPred card) s.agents = none) :
    apply_agent_commission s (some card) tb p = .error .InvalidRoomCard := by
  rw [apply_agent_commission]
  simp only [hno]

/-- The pre-commission stages of `play` never touch the agent list. -/
theorem play_core_agents (h : HashFn) (s : GameState) (bets : List Nat)
    (ctx : PlayCtx) (r : GameState × Nat × Nat)
    (hok : play_core h s bets ctx = .ok r) : r.1.agents = s.agents := by
  rw [play_core] at hok
  cases h1 : validate_bets bets s.min_bet with
  | error e => simp only [h1] at hok; exact Except.noConfusion hok
  | ok u =>
    simp only [h1] at hok
    by_cases hk : ctx.poolKey ≠ s.pool_token_account
    · rw [if_pos hk] at hok; exact Except.noConfusion hok
    · rw [if_neg hk] at hok
      cases h2 : bets_total bets with
      | error e => simp only [h2] at hok; exact Except.noConfusion hok
      | ok total_bet =>
        simp only [h2] at hok
        cases h3 : checkedAddU64 s.total_pool total_bet with
        | error e => simp only [h3] at hok; exact Except.noConfusion hok
        | ok tp1 =>
          simp only [h3] at hok
          cases h4 : read_vrf_bytes ctx.vrfKey s.vrf s.vrf_result_offset ctx.vrfData with
          | error e => simp only [h4] at hok; exact Except.noConfusion hok
          | ok vrf =>
            simp only [h4] at hok
            cases h5 : checkedAddU64 s.nonce 1 with
            | error e => simp only [h5] at hok; exact Except.noConfusion hok
            | ok nonce1 =>
              simp only [h5] at hok
              cases h6 : compute_total_payout h
                  (derive_seed h vrf (some ctx.player) (some s.nonce) (some ctx.slot) none)
                  bets { s with total_pool := tp1, nonce := nonce1 } with
              | error e => simp only [h6] at hok; exact Except.noConfusion hok
              | ok res =>
                obtain ⟨payout, d, m, last⟩ := res
                simp only [h6] at hok
                by_cases hpz : 0 < payout
                · rw [if_pos hpz] at hok
                  by_cases ha1 : ctx.poolAmount < payout
                  · rw [if_pos ha1] at hok; exact Except.noConfusion hok
                  · rw [if_neg ha1] at hok
                    by_cases ha2 : GameState.total_pool { s with total_pool := tp1, nonce := nonce1 } < payout
                    · rw [if_pos ha2] at hok; exact Except.noConfusion hok
                    · rw [if_neg ha2] at hok
                      cases h7 : checkedSubU64 (GameState.total_pool { s with total_pool := tp1, nonce := nonce1 }) payout with
                      | error e => simp only [h7] at hok; exact Except.noConfusion hok
                      | ok tp2 =>
                        simp only [h7] at hok
                        obtain rfl := Except.ok.inj hok
                        rfl
                · rw [if_neg hpz] at hok
                  obtain rfl := Except.ok.inj hok
                  rfl

/-- The pre-commission stages of `settle_play` never touch the agent
list. -/
theorem settle_core_agents (h : HashFn) (s : GameState) (p : PendingPlay)
    (ctx : SettleCtx) (r : GameState × Nat × Nat)
    (hok : settle_core h s p ctx = .ok r) : r.1.agents = s.agents := by
  rw [settle_core] at hok
  by_cases k1 : ctx.poolKey ≠ s.pool_token_account
  · rw [if_pos k1] at hok; exact Except.noConfusion hok
  · rw [if_neg k1] at hok
    by_cases k2 : ctx.vrfKey ≠ s.vrf
    · rw [if_pos k2] at hok; exact Except.noConfusion hok
    · rw [if_neg k2] at hok
      by_cases k3 : p.player ≠ ctx.playerKey
      · rw [if_pos k3] at hok; exact Except.noConfusion hok
      · rw [if_neg k3] at hok
        by_cases k4 : p.player_token_account ≠ ctx.playerTokenKey
        · rw [if_pos k4] at hok; exact Except.noConfusion hok
        · rw [if_neg k4] at hok
          by_cases k5 : p.pool_token_account ≠ ctx.poolKey
          · rw [if_pos k5] at hok; exact Except.noConfusion hok
          · rw [if_neg k5] at hok
            cases h1 : read_vrf_bytes ctx.vrfKey s.vrf s.vrf_result_offset ctx.vrfData with
            | error e => simp only [h1] at hok; exact Except.noConfusion hok
            | ok after =>
              simp only [h1] at hok
              by_cases k6 : after = p.vrf_result_before
              · rw [if_pos k6] at hok; exact Except.noConfusion hok
              · rw [if_neg k6] at hok
                cases h2 : compute_total_payout h
                    (derive_seed h p.vrf_result_before (some p.player)
                      (some p.request_nonce) (some p.request_slot) (some after))
                    p.bets s with
                | error e => simp only [h2] at hok; exact Except.noConfusion hok
                | ok res =>
                  obtain ⟨payout, d, m, last⟩ := res
                  simp only [h2] at hok
                  by_cases hpz : 0 < payout
                  · rw [if_pos hpz] at hok
                    by_cases ha1 : ctx.poolAmount < payout
                    · rw [if_pos ha1] at hok; exact Except.noConfusion hok
                    · rw [if_neg ha1] at hok
                      by_cases ha2 : s.total_pool < payout
                      · rw [if_pos ha2] at hok; exact Except.noConfusion hok
                      · rw [if_neg ha2] at hok
                        cases h3 : checkedSubU64 s.total_pool payout with
                        | error e => simp only [h3] at hok; exact Except.noConfusion hok
                        | ok tp2 =>
                          simp only [h3] at hok
                          obtain rfl := Except.ok.inj hok
                          rfl
                  · rw [if_neg hpz] at hok
                    obtain rfl := Except.ok.inj hok
                    rfl

/-- Claim C5: when a routing code is supplied under which no agent is
registered (no agent is both active and assigned that card), `play` and
`settle_play` can never succeed; whenever the pre-commission stages —
including the already-computed payout transfer — succeed, the operation
fails with `InvalidRoomCard`, and the rolled-back transaction leaves the
state exactly as before. -/
theorem c5_unmatched_room_card (h : HashFn) (s : GameState) (bets : List Nat)
    (card : Nat) (ctx : PlayCtx) (p : PendingPlay) (sctx : SettleCtx)
    (hno : ∀ a ∈ s.agents, ¬(a.is_active = true ∧ a.room_card = card))
    (hp : p.has_room_card = true) (hpc : p.room_card = card) :
    (∀ s', play h s bets (some card) ctx ≠ .ok s') ∧
    (∀ r, play_core h s bets ctx = .ok r →
      play h s bets (some card) ctx = .error .InvalidRoomCard) ∧
    applyTx s (play h s bets (some card) ctx) = s ∧
    (∀ s', settle_play h s p sctx ≠ .ok s') ∧
    (∀ r, settle_core h s p sctx = .ok r →
      settle_play h s p sctx = .error .InvalidRoomCard) ∧
    applyTx s (settle_play h s p sctx) = s := by
  have hplay : ∀ r, play_core h s bets ctx = .ok r →
      play h s bets (some card) ctx = .error .InvalidRoomCard := by
    intro r hr
    rw [play, hr]
    apply apply_agent_commission_no_match
    rw [show r.1.agents = s.agents from play_core_agents h s bets ctx r hr]
    exact find_index_none _ _ (fun a ha => agentCommissionPred_false card a (hno a ha))
  have hsettle : ∀ r, settle_core h s p sctx = .ok r →
      settle_play h s p sctx = .error .InvalidRoomCard := by
    intro r hr
    rw [settle_play, hr]
    simp only [if_pos hp]
    rw [hpc]
    apply apply_agent_commission_no_match
    rw [show r.1.agents = s.agents from settle_core_agents h s p sctx r hr]
    exact find_index_none _ _ (fun a ha => agentCommissionPred_false card a (hno a ha))
  have hplayerr : ∀ s', play h s bets (some card) ctx ≠ .ok s' := by
    intro s' hs'
    cases hc : play_core h s bets ctx with
    | error e => rw [play, hc] at hs'; exact Except.noConfusion hs'
    | ok r => rw [hplay r hc] at hs'; exact Except.noConfusion hs'
  have hsettleerr : ∀ s', settle_play h s p sctx ≠ .ok s' := by
    intro s' hs'
    cases hc : settle_core h s p sctx with
    | error e => rw [settle_play, hc] at hs'; exact Except.noConfusion hs'
    | ok r => rw [hsettle r hc] at hs'; exact Except.noConfusion hs'
  refine ⟨hplayerr, hplay, ?_, hsettleerr, hsettle, ?_⟩
  · cases hc : play h s bets (some card) ctx with
    | error e => rw [applyTx]
    | ok s' => exact absurd hc (hplayerr s')
  · cases hc : settle_play h s p sctx with
    | error e => rw [applyTx]
    | ok s' => exact absurd hc (hsettleerr s')

/-- Witness for C5: a registered-agent-free game in which both the immediate
and the two-phase resolution reach the ledger stage and abort there. -/
theorem c5_unmatched_room_card_witness :
    (∀ a ∈ egState.agents, ¬(a.is_active = true ∧ a.room_card = 77)) ∧
    play hZero egState bets0 (some 77) ctx0 = .error .InvalidRoomCard ∧
    applyTx egState (play hZero egState bets0 (some 77) ctx0) = egState ∧
    settle_play hZero egState pFresh sctx0 = .error .InvalidRoomCard ∧
    applyTx egState (settle_play hZero egState pFresh sctx0) = egState := by
  have h := c5_unmatched_room_card hZero egState bets0 77 ctx0 pFresh sctx0
    (by decide) (by decide) (by decide)
  exact ⟨by decide,
    h.2.1 ({ egState with total_pool := 999998800, nonce := 1 }, 1000, 2200) (by decide),
    h.2.2.1,
    h.2.2.2.2.1 ({ egState with total_pool := 999997800 }, 1000, 2200) (by decide),
    h.2.2.2.2.2⟩

/-- Claim C7: under the transaction semantics `applyTx` (Anchor rolls back
every account write when an instruction errors), any failing `play` or
`settle_play` — in particular any checked-arithmetic overflow, e.g. the
pool-total addition exceeding the `u64` range, which is shown to produce
`MathOverflow` — leaves the entire state exactly as before the call; no
partial payout or ledger update is observable. -/
theorem c7_overflow_atomicity (h : HashFn) (s : GameState) (bets : List Nat)
    (card : Option Nat) (ctx : PlayCtx) (p : PendingPlay) (sctx : SettleCtx) :
    (∀ e, play h s bets card ctx = .error e → applyTx s (play h s bets card ctx) = s) ∧
    (∀ e, settle_play h s p sctx = .error e → applyTx s (settle_play h s p sctx) = s) ∧
    (∀ tb, validate_bets bets s.min_bet = .ok () → ctx.poolKey = s.pool_token_account →
      bets_total bets = .ok tb → U64_LIMIT ≤ s.total_pool + tb →
      play h s bets card ctx = .error .MathOverflow) := by
  refine ⟨?_, ?_, ?_⟩
  · intro e he; rw [he]; rfl
  · intro e he; rw [he]; rfl
  · intro tb hv hk ht hof
    have hcore : play_core h s bets ctx = .error .MathOverflow := by
      rw [play_core]
      simp only [hv, ht]
      rw [if_neg (by simp [hk])]
      rw [checkedAddU64, if_neg (by omega)]
    rw [play, hcore]

/-- Witness for C7: a pool one below the `u64` limit overflows on deposit
and the state is unchanged. -/
theorem c7_overflow_atomicity_witness :
    play hZero ovState bets0 none ctx0 = .error .MathOverflow ∧
    applyTx ovState (play hZero ovState bets0 none ctx0) = ovState := by
  have h := c7_overflow_atomicity hZero ovState bets0 none ctx0 pFresh sctx0
  have hp := h.2.2 1000 (by decide) (by decide) (by decide) (by decide)
  exact ⟨hp, h.1 .MathOverflow hp⟩

/-- Successful `i64::try_from` returns the (non-negative) value itself. -/
theorem i64TryFrom_ok (n : Nat) (v : Int) (h : i64TryFrom n = .ok v) : v = (n : Int) := by
  rw [i64TryFrom] at h
  split at h
  · exact (Except.ok.inj h).symm
  · exact Except.noConfusion h

/-- Successful checked `i64` addition returns the sum. -/
theorem i64CheckedAdd_ok (a b v : Int) (h : i64CheckedAdd a b = .ok v) : v = a + b := by
  rw [i64CheckedAdd] at h
  split at h
  · exact (Except.ok.inj h).symm
  · exact Except.noConfusion h

/-- Reading any index of an all-non-negative agent list (with the default
agent as fallback) yields a non-negative commission. -/
theorem commission_nonneg_getD (l : List Agent) (i : Nat)
    (hall : ∀ a ∈ l, 0 ≤ a.commission) : 0 ≤ (l.getD i dAgent).commission := by
  by_cases hi : i < l.length
  · rw [List.getD_eq_getElem l dAgent hi]
    exact hall _ (List.getElem_mem hi)
  · rw [List.getD_eq_default l dAgent (by omega)]
    norm_num [dAgent]

/-- Updating one agent with a non-negative commission preserves the
ledger floor. -/
theorem commissionsNonneg_set (l : List Agent) (i : Nat) (a : Agent)
    (hall : ∀ x ∈ l, 0 ≤ x.commission) (ha : 0 ≤ a.commission) :
    ∀ x ∈ l.set i a, 0 ≤ x.commission := by
  intro x hx
  rcases List.mem_or_eq_of_mem_set hx with hmem | rfl
  · exact hall x hmem
  · exact ha

/-- The commission ledger update preserves the ledger floor: accruals add a
non-negative delta, and claw-backs are floored at zero. -/
theorem apply_agent_commission_nonneg (s : GameState) (card : Option Nat)
    (tb p : Nat) (s' : GameState) (hall : commissionsNonneg s)
    (hok : apply_agent_commission s card tb p = .ok s') : commissionsNonneg s' := by
  cases card with
  | none => rw [apply_agent_commission] at hok; obtain rfl := Except.ok.inj hok; exact hall
  | some c =>
    rw [apply_agent_commission] at hok
    cases hfind : find_index (agentCommissionPred c) s.agents with
    | none => simp only [hfind] at hok; exact Except.noConfusion hok
    | some i =>
      simp only [hfind] at hok
      by_cases hr : s.commission_rate = 0
      · rw [if_pos hr] at hok; obtain rfl := Except.ok.inj hok; exact hall
      · rw [if_neg hr] at hok
        by_cases hneg : ((p : Int) - (tb : Int)) < 0
        · rw [if_pos hneg] at hok
          cases hm : checkedMulU128 (-((p : Int) - (tb : Int))).toNat s.commission_rate with
          | error e => simp only [hm] at hok; exact Except.noConfusion hok
          | ok prod =>
            simp only [hm] at hok
            cases htf : i64TryFrom (prod / 100) with
            | error e => simp only [htf] at hok; exact Except.noConfusion hok
            | ok di =>
              simp only [htf] at hok
              cases hadd : i64CheckedAdd (s.agents.getD i dAgent).commission di with
              | error e => simp only [hadd] at hok; exact Except.noConfusion hok
              | ok v =>
                simp only [hadd] at hok
                obtain rfl := Except.ok.inj hok
                have hdi : 0 ≤ di := by
                  rw [i64TryFrom_ok (prod / 100) di htf]; positivity
                have hco : 0 ≤ (s.agents.getD i dAgent).commission :=
                  commission_nonneg_getD s.agents i hall
                have hv : 0 ≤ v := by
                  rw [i64CheckedAdd_ok _ _ _ hadd]; omega
                exact commissionsNonneg_set s.agents i _ hall hv
        · rw [if_neg hneg] at hok
          by_cases hpos : 0 < ((p : Int) - (tb : Int))
          · rw [if_pos hpos] at hok
            by_cases hz : (s.agents.getD i dAgent).commission = 0
            · rw [if_pos hz] at hok; obtain rfl := Except.ok.inj hok; exact hall
            · rw [if_neg hz] at hok
              cases hm : checkedMulU128 ((p : Int) - (tb : Int)).toNat s.commission_rate with
              | error e => simp only [hm] at hok; exact Except.noConfusion hok
              | ok prod =>
                simp only [hm] at hok
                cases htf : i64TryFrom (prod / 100) with
                | error e => simp only [htf] at hok; exact Except.noConfusion hok
                | ok di =>
                  simp only [htf] at hok
                  obtain rfl := Except.ok.inj hok
                  exact commissionsNonneg_set s.agents i _ hall (le_max_right _ _)
          · rw [if_neg hpos] at hok; obtain rfl := Except.ok.inj hok; exact hall

/-- Agent registration preserves the ledger floor (new agents start at 0,
existing commissions are untouched). -/
theorem become_agent_nonneg (s : GameState) (k amt : Nat) (now : Int) (s' : GameState)
    (hall : commissionsNonneg s) (hok : become_agent s k amt now = .ok s') :
    commissionsNonneg s' := by
  rw [become_agent] at hok
  by_cases h1 : ¬ s.stake_threshold ≤ amt
  · rw [if_pos h1] at hok; exact Except.noConfusion hok
  · rw [if_neg h1] at hok
    by_cases h2 : ¬ s.agents.length < MAX_AGENT_COUNT
    · rw [if_pos h2] at hok; exact Except.noConfusion hok
    · rw [if_neg h2] at hok
      cases hfind : find_index (fun a => a.pubkey == k) s.agents with
      | some i =>
        simp only [hfind] at hok
        by_cases hrc : (s.agents.getD i dAgent).room_card = 0
        · simp only [if_pos hrc] at hok
          cases hnrc : checkedAddU64 s.next_room_card 1 with
          | error e => simp only [hnrc] at hok; exact Except.noConfusion hok
          | ok nrc =>
            simp only [hnrc] at hok
            cases hst : checkedAddU64 (s.agents.getD i dAgent).stake amt with
            | error e => simp only [hst] at hok; exact Except.noConfusion hok
            | ok st' =>
              simp only [hst] at hok
              obtain rfl := Except.ok.inj hok
              exact commissionsNonneg_set s.agents i _ hall
                (commission_nonneg_getD s.agents i hall)
        · simp only [if_neg hrc] at hok
          cases hst : checkedAddU64 (s.agents.getD i dAgent).stake amt with
          | error e => simp only [hst] at hok; exact Except.noConfusion hok
          | ok st' =>
            simp only [hst] at hok
            obtain rfl := Except.ok.inj hok
            exact commissionsNonneg_set s.agents i _ hall
              (commission_nonneg_getD s.agents i hall)
      | none =>
        simp only [hfind] at hok
        cases hnrc : checkedAddU64 s.next_room_card 1 with
        | error e => simp only [hnrc] at hok; exact Except.noConfusion hok
        | ok nrc =>
          simp only [hnrc] at hok
          obtain rfl := Except.ok.inj hok
          intro x hx
          rcases List.mem_append.mp hx with hmem | hnew
          · exact hall x hmem
          · rw [List.mem_singleton.mp hnew]

/-- Stake redemption clears the commission to 0, preserving the floor. -/
theorem redeem_agent_stake_nonneg (s : GameState) (k vault : Nat) (s' : GameState)
    (hall : commissionsNonneg s) (hok : redeem_agent_stake s k vault = .ok s') :
    commissionsNonneg s' := by
  rw [redeem_agent_stake] at hok
  cases hfind : find_index (fun a => a.pubkey == k) s.agents with
  | none => simp only [hfind] at hok; exact Except.noConfusion hok
  | some i =>
    simp only [hfind] at hok
    by_cases h1 : ¬ 0 < (s.agents.getD i dAgent).stake
    · rw [if_pos h1] at hok; exact Except.noConfusion hok
    · rw [if_neg h1] at hok
      by_cases h2 : ¬ (s.agents.getD i dAgent).stake ≤ vault
      · rw [if_pos h2] at hok; exact Except.noConfusion hok
      · rw [if_neg h2] at hok
        obtain rfl := Except.ok.inj hok
        exact commissionsNonneg_set s.agents i _ hall (by norm_num)

/-- Commission withdrawal clears the commission to 0, preserving the
floor. -/
theorem withdraw_commission_nonneg (s : GameState) (k : Nat) (now : Int)
    (poolKey poolAmount : Nat) (s' : GameState) (hall : commissionsNonneg s)
    (hok : withdraw_commission s k now poolKey poolAmount = .ok s') :
    commissionsNonneg s' := by
  rw [withdraw_commission] at hok
  by_cases h0 : poolKey ≠ s.pool_token_account
  · rw [if_pos h0] at hok; exact Except.noConfusion hok
  · rw [if_neg h0] at hok
    cases hfind : find_index (fun a => a.pubkey == k) s.agents with
    | none => simp only [hfind] at hok; exact Except.noConfusion hok
    | some i =>
      simp only [hfind] at hok
      by_cases h1 : ¬ 0 < (s.agents.getD i dAgent).room_card
      · rw [if_pos h1] at hok; exact Except.noConfusion hok
      · rw [if_neg h1] at hok
        by_cases h2 : ¬ (s.settlement_period : Int) ≤
            i64SaturatingSub now (s.agents.getD i dAgent).last_settlement
        · rw [if_pos h2] at hok; exact Except.noConfusion hok
        · rw [if_neg h2] at hok
          by_cases h3 : (s.agents.getD i dAgent).commission < 0
          · rw [if_pos h3] at hok; exact Except.noConfusion hok
          · rw [if_neg h3] at hok
            by_cases h4 : ¬ 0 < (s.agents.getD i dAgent).commission.toNat
            · rw [if_pos h4] at hok; exact Except.noConfusion hok
            · rw [if_neg h4] at hok
              by_cases h5 : ¬ (s.agents.getD i dAgent).commission.toNat ≤ poolAmount
              · rw [if_pos h5] at hok; exact Except.noConfusion hok
              · rw [if_neg h5] at hok
                by_cases h6 : ¬ (s.agents.getD i dAgent).commission.toNat ≤ s.total_pool
                · rw [if_pos h6] at hok; exact Except.noConfusion hok
                · rw [if_neg h6] at hok
                  cases hsub : checkedSubU64 s.total_pool
                      (s.agents.getD i dAgent).commission.toNat with
                  | error e => simp only [hsub] at hok; exact Except.noConfusion hok
                  | ok tp =>
                    simp only [hsub] at hok
                    obtain rfl := Except.ok.inj hok
                    exact commissionsNonneg_set s.agents i _ hall (by norm_num)

/-- An immediate play preserves the ledger floor. -/
theorem play_nonneg (h : HashFn) (s : GameState) (bets : List Nat)
    (card : Option Nat) (ctx : PlayCtx) (s' : GameState) (hall : commissionsNonneg s)
    (hok : play h s bets card ctx = .ok s') : commissionsNonneg s' := by
  rw [play] at hok
  cases hc : play_core h s bets ctx with
  | error e => simp only [hc] at hok; exact Except.noConfusion hok
  | ok r =>
    simp only [hc] at hok
    obtain ⟨s2, tb, po⟩ := r
    have hag : s2.agents = s.agents := play_core_agents h s bets ctx (s2, tb, po) hc
    have hall2 : commissionsNonneg s2 := by
      intro x hx
      exact hall x (hag ▸ hx)
    exact apply_agent_commission_nonneg s2 card tb po s' hall2 hok

/-- A two-phase settlement preserves the ledger floor. -/
theorem settle_play_nonneg (h : HashFn) (s : GameState) (p : PendingPlay)
    (ctx : SettleCtx) (s' : GameState) (hall : commissionsNonneg s)
    (hok : settle_play h s p ctx = .ok s') : commissionsNonneg s' := by
  rw [settle_play] at hok
  cases hc : settle_core h s p ctx with
  | error e => simp only [hc] at hok; exact Except.noConfusion hok
  | ok r =>
    simp only [hc] at hok
    obtain ⟨s2, tb, po⟩ := r
    have hag : s2.agents = s.agents := settle_core_agents h s p ctx (s2, tb, po) hc
    have hall2 : commissionsNonneg s2 := by
      intro x hx
      exact hall x (hag ▸ hx)
    exact apply_agent_commission_nonneg s2 _ tb po s' hall2 hok

/-- Every transaction (applied with rollback-on-error) preserves the ledger
floor. -/
theorem stepOp_nonneg (s : GameState) (op : Op) (hall : commissionsNonneg s) :
    commissionsNonneg (stepOp s op) := by
  rw [stepOp]
  cases hr : runOp s op with
  | error e => exact hall
  | ok s2 =>
    show commissionsNonneg s2
    cases op with
    | becomeAgent k amt now => exact become_agent_nonneg s k amt now s2 hall hr
    | redeemAgentStake k vault => exact redeem_agent_stake_nonneg s k vault s2 hall hr
    | withdrawCommission k now pk pa =>
      exact withdraw_commission_nonneg s k now pk pa s2 hall hr
    | playOp hh bets cardo ctx => exact play_nonneg hh s bets cardo ctx s2 hall hr
    | settlePlayOp hh p ctx => exact settle_play_nonneg hh s p ctx s2 hall hr

/-- Claim C3: starting from any state satisfying the ledger floor (in
particular a freshly initialized game), every sequence of `become_agent`,
`redeem_agent_stake`, `withdraw_commission`, `play` and `settle_play`
transactions keeps every agent's commission non-negative. -/
theorem c3_commission_floor (s : GameState) (ops : List Op)
    (hall : commissionsNonneg s) : commissionsNonneg (runOps s ops) := by
  induction ops generalizing s with
  | nil => exact hall
  | cons op rest ih =>
    rw [runOps, List.foldl_cons]
    exact ih (stepOp s op) (stepOp_nonneg s op hall)

/-- Witness for C3: a concrete operation sequence from a concrete state. -/
theorem c3_commission_floor_witness :
    commissionsNonneg scState ∧
      commissionsNonneg (runOps scState
        [Op.becomeAgent 5 2000000 10,
         Op.playOp hZero bets0 (some 7) ctx0,
         Op.redeemAgentStake 5 0]) :=
  ⟨by decide, c3_commission_floor scState _ (by decide)⟩
